import Mathlib

/-!
Verification of the rope-physics simulator of `src/2022/09/__main__.py`
(and the shared grid-vector type of `src/2022/common.py`) against its
natural-language specification.

The Python program is shallowly embedded: Python `int` becomes `Int`,
the `Coordinates` dataclass becomes a structure, generators become
`List`-producing functions, and fallible operations (`knots[-1]` on a
possibly-empty list, `int(...)` / `Direction(...)` parsing) return
`Option`.  Strings are modelled as `List Char`.
-/

/-- Embedding of the dataclass `Coordinates` of `src/2022/09/__main__.py`:
object coordinates on the grid, two integer fields defaulting to 0.
The derived `DecidableEq` models the dataclass-generated structural
`__eq__`. -/
structure Coordinates where
  x : Int := 0
  y : Int := 0
deriving DecidableEq, Repr

/-- Embedding of `Coordinates.__add__`: componentwise addition. -/
def Coordinates.add (a b : Coordinates) : Coordinates :=
  ⟨a.x + b.x, a.y + b.y⟩

/-- Embedding of `Coordinates.__sub__`: componentwise subtraction. -/
def Coordinates.sub (a b : Coordinates) : Coordinates :=
  ⟨a.x - b.x, a.y - b.y⟩

/-- Embedding of the `Direction` enum (`U`, `D`, `R`, `L`). -/
inductive Direction where
  | UP
  | DOWN
  | RIGHT
  | LEFT
deriving DecidableEq, Repr

/-- Embedding of the enum value lookup `Direction(direction)` performed by
`Move.from_line`: maps the one-letter string value to the member, and fails
(Python raises `ValueError`) on any other string. -/
def Direction.ofValue : List Char → Option Direction
  | ['U'] => some Direction.UP
  | ['D'] => some Direction.DOWN
  | ['R'] => some Direction.RIGHT
  | ['L'] => some Direction.LEFT
  | _ => none

/-- Embedding of the dataclass `Move`: a direction and a speed (magnitude).
`speed` is a Python `int`, hence `Int` (it may be negative: `int(speed)`
accepts a leading minus sign). -/
structure Move where
  direction : Direction
  speed : Int
deriving DecidableEq, Repr

/-- Embedding of `Move.update` (the inner helper of `Move.apply`):
`dataclasses.replace` of the one coordinate selected by `self.direction`,
offset added (UP/RIGHT) or subtracted (DOWN/LEFT).  The Python helper
ignores its own `direction` parameter and branches on `self.direction`;
the trailing unreachable `raise ValueError` is covered by totality of the
match. -/
def Move.update (m : Move) (coordinates : Coordinates) (offset : Int) : Coordinates :=
  match m.direction with
  | Direction.UP => { coordinates with y := coordinates.y + offset }
  | Direction.DOWN => { coordinates with y := coordinates.y - offset }
  | Direction.RIGHT => { coordinates with x := coordinates.x + offset }
  | Direction.LEFT => { coordinates with x := coordinates.x - offset }

/-- Embedding of `Move.apply`: the generator
`update(coordinates, self.direction, offset + 1) for offset in range(self.speed)`,
collected into a list.  Python's `range(n)` is empty for `n ≤ 0`, which
`Int.toNat` reproduces. -/
def Move.apply (m : Move) (coordinates : Coordinates) : List Coordinates :=
  (List.range m.speed.toNat).map (fun offset => m.update coordinates (Int.ofNat offset + 1))

/-- Embedding of the dataclass `Bridge`: a head position and the list of
trailing knots.  (The Python defaults — head at the origin, a single knot at
the origin, and the `__post_init__` `None` guard — are applied at the only
construction site, `bridges`.) -/
structure Bridge where
  head : Coordinates
  knots : List Coordinates
deriving DecidableEq, Repr

/-- Embedding of the property `Bridge.tail`, i.e. `self.knots[-1]`:
Python raises `IndexError` on an empty list, modelled by `Option`. -/
def Bridge.tail (b : Bridge) : Option Coordinates :=
  b.knots.getLast?

/-- Embedding of the inner helper `move_knot` of `Bridge.follow`: the
knot-follow rule.  `relative = ahead_knot - knot`; if both components have
absolute value at most 1 the knots touch and the offset is `(0, 0)`;
otherwise the offset is a vertical, horizontal, or diagonal unit step whose
nonzero components copy the strict sign tests `1 if ... > 0 else -1` of the
source. -/
def move_knot (knot ahead_knot : Coordinates) : Coordinates :=
  let relative := ahead_knot.sub knot
  let offset : Coordinates :=
    if relative.x.natAbs ≤ 1 ∧ relative.y.natAbs ≤ 1 then
      ⟨0, 0⟩
    else if relative.x = 0 then
      ⟨0, if 0 < relative.y then 1 else -1⟩
    else if relative.y = 0 then
      ⟨if 0 < relative.x then 1 else -1, 0⟩
    else
      ⟨if 0 < relative.x then 1 else -1, if 0 < relative.y then 1 else -1⟩
  knot.add offset

/-- The knot-updating loop of `Bridge.follow`: starting from the new head as
`ahead_knot`, each knot is moved relative to the already-updated position of
its predecessor, and the updated positions are accumulated in order. -/
def Bridge.followAux (ahead_knot : Coordinates) : List Coordinates → List Coordinates
  | [] => []
  | knot :: rest =>
    let moved := move_knot knot ahead_knot
    moved :: Bridge.followAux moved rest

/-- Embedding of `Bridge.follow`: an updated copy of the bridge with the
given new head, the trailing knots each following their predecessor. -/
def Bridge.follow (b : Bridge) (head : Coordinates) : Bridge :=
  ⟨head, Bridge.followAux head b.knots⟩

/-- The bridge every run starts from: head at the origin and
`number_of_knots` trailing knots at the origin
(`Bridge(knots=[Coordinates() for _ in range(number_of_knots)])`). -/
def initialBridge (number_of_knots : Nat) : Bridge :=
  ⟨⟨0, 0⟩, List.replicate number_of_knots ⟨0, 0⟩⟩

/-- The inner loop of the generator `bridges`: for each head position
produced by `move.apply`, the bridge follows that head and is yielded.
Returns the yielded bridges together with the final bridge. -/
def stepHeads (b : Bridge) : List Coordinates → List Bridge × Bridge
  | [] => ([], b)
  | h :: hs =>
    let b2 := b.follow h
    let r := stepHeads b2 hs
    (b2 :: r.1, r.2)

/-- The outer loop of the generator `bridges`: each move is expanded from
the head position the bridge has when the move starts
(`move.apply(bridge.head)`), and the resulting bridges are yielded in
order. -/
def runMoves (b : Bridge) : List Move → List Bridge
  | [] => []
  | m :: ms =>
    let r := stepHeads b (m.apply b.head)
    r.1 ++ runMoves r.2 ms

/-- Embedding of the generator `bridges(filepath, number_of_knots)`, with
the already-parsed move list in place of the file: the initial bridge is
yielded first, then one bridge per unit step. -/
def bridges (moves : List Move) (number_of_knots : Nat) : List Bridge :=
  initialBridge number_of_knots :: runMoves (initialBridge number_of_knots) moves

/-- The pair `(bridge.tail.x, bridge.tail.y)` collected by the set
comprehension of `__main__`; `none` models the `IndexError` raised by
`knots[-1]` on an empty knot list. -/
def tailTuple (b : Bridge) : Option (Int × Int) :=
  b.tail.map (fun t => (t.x, t.y))

/-- All-or-nothing map, modelling a comprehension that raises if any
element raises. -/
def optionMap (f : α → Option β) : List α → Option (List β)
  | [] => some []
  | a :: rest =>
    match f a, optionMap f rest with
    | some b, some bs => some (b :: bs)
    | _, _ => none

/-- The multiset of tail tuples of all yielded bridges, in yield order
(`none` if any bridge has no trailing knot). -/
def visitedTails (moves : List Move) (number_of_knots : Nat) : Option (List (Int × Int)) :=
  optionMap tailTuple (bridges moves number_of_knots)

/-- Embedding of the answer printed by `__main__`:
`len({(bridge.tail.x, bridge.tail.y) for bridge in bridges(...)})`, the
number of distinct tail tuples. -/
def answer (moves : List Move) (number_of_knots : Nat) : Option Nat :=
  (visitedTails moves number_of_knots).map (fun ts => ts.dedup.length)

/-- Modelled from the spec (§3/§8): two grid positions are touching when
they are within Chebyshev distance 1, i.e. `|Δx| ≤ 1` and `|Δy| ≤ 1`. -/
def touching (a b : Coordinates) : Prop :=
  (a.x - b.x).natAbs ≤ 1 ∧ (a.y - b.y).natAbs ≤ 1

instance (a b : Coordinates) : Decidable (touching a b) :=
  inferInstanceAs (Decidable ((a.x - b.x).natAbs ≤ 1 ∧ (a.y - b.y).natAbs ≤ 1))

/-- Modelled from the spec (§3): the touching invariant of a chain — every
adjacent pair of the sequence head, knot 0, …, knot N-1 is touching. -/
def chainTouching (b : Bridge) : Prop :=
  List.Chain' touching (b.head :: b.knots)

/-- Structural decision procedure for the touching chain, so that concrete
chains can be checked by evaluation. -/
def touchChainDec (a : Coordinates) : (l : List Coordinates) → Decidable (List.Chain touching a l)
  | [] => isTrue List.Chain.nil
  | b :: l =>
    haveI : Decidable (List.Chain touching b l) := touchChainDec b l
    decidable_of_iff (touching a b ∧ List.Chain touching b l) List.chain_cons.symm

instance (b : Bridge) : Decidable (chainTouching b) :=
  touchChainDec b.head b.knots

/-- Python whitespace characters stripped by `int(str)`. -/
def isPySpace (c : Char) : Bool :=
  c = ' ' ∨ c = '\t' ∨ c = '\n' ∨ c = '\x0b' ∨ c = '\x0c' ∨ c = '\r'

/-- Embedding of `line.replace("\n", "")`: every newline character is
removed. -/
def removeNewlines : List Char → List Char
  | [] => []
  | c :: rest =>
    if c = '\n' then removeNewlines rest else c :: removeNewlines rest

/-- Embedding of `str.split(" ")`: split on every single space character,
keeping empty pieces. -/
def splitOnSpace : List Char → List (List Char)
  | [] => [[]]
  | c :: rest =>
    match splitOnSpace rest with
    | [] => [[]]
    | piece :: pieces =>
      if c = ' ' then [] :: piece :: pieces else (c :: piece) :: pieces

/-- Decimal digit accumulation for the body of a Python integer literal:
digits with optional single underscores between digits (`int("1_0") = 10`,
while `"_1"`, `"1_"` and `"1__0"` are rejected). -/
def parseDigitsAfter (acc : Nat) : List Char → Option Nat
  | [] => some acc
  | '_' :: c :: rest =>
    if c.isDigit then parseDigitsAfter (acc * 10 + (c.toNat - '0'.toNat)) rest else none
  | c :: rest =>
    if c.isDigit then parseDigitsAfter (acc * 10 + (c.toNat - '0'.toNat)) rest else none

/-- Nonempty digit body of a Python integer literal. -/
def parseDigits : List Char → Option Nat
  | c :: rest =>
    if c.isDigit then parseDigitsAfter (c.toNat - '0'.toNat) rest else none
  | [] => none

/-- Strip leading and trailing Python whitespace. -/
def pyStrip (cs : List Char) : List Char :=
  ((cs.dropWhile isPySpace).reverse.dropWhile isPySpace).reverse

/-- Embedding of Python's `int(str)` in base 10: surrounding whitespace,
an optional single sign, then a nonempty digit body; anything else raises
`ValueError`, modelled by `none`. -/
def pyInt (cs : List Char) : Option Int :=
  match pyStrip cs with
  | '+' :: rest => (parseDigits rest).map (fun n => (n : Int))
  | '-' :: rest => (parseDigits rest).map (fun n => -(n : Int))
  | rest => (parseDigits rest).map (fun n => (n : Int))

/-- Embedding of `Move.from_line`: strip newlines, split on spaces, unpack
into exactly two pieces (any other arity raises), then parse the direction
by enum value and the speed by `int`.  Any raised `ValueError` is `none`. -/
def Move.from_line (line : List Char) : Option Move :=
  match splitOnSpace (removeNewlines line) with
  | [direction, speed] =>
    match Direction.ofValue direction, pyInt speed with
    | some d, some s => some ⟨d, s⟩
    | _, _ => none
  | _ => none

/-- Embedding of the dataclass `Vector` of `src/2022/common.py`: a point on
the two-dimensional integer grid, with an explicit `__hash__`. -/
structure Vector where
  x : Int
  y : Int
deriving DecidableEq, Repr

/-- Embedding of `Vector.__add__`. -/
def Vector.add (a b : Vector) : Vector :=
  ⟨a.x + b.x, a.y + b.y⟩

/-- Embedding of `Vector.__sub__`. -/
def Vector.sub (a b : Vector) : Vector :=
  ⟨a.x - b.x, a.y - b.y⟩

/-- CPython's hash of an `int`: the value reduced modulo `2^61 - 1`
(sign-symmetric), with the reserved value `-1` mapped to `-2`. -/
def pyHashInt (n : Int) : Int :=
  let m : Int := 2 ^ 61 - 1
  let h : Int := if 0 ≤ n then n % m else -((-n) % m)
  if h = -1 then -2 else h

/-- Rotate a 64-bit value left by 31 bits. -/
def rotl31 (x : Nat) : Nat :=
  (x * 2 ^ 31) % 2 ^ 64 + x / 2 ^ 33

/-- One lane-combining round of CPython's xxHash-based tuple hash. -/
def tupleHashRound (acc lane : Nat) : Nat :=
  (rotl31 ((acc + lane * 14029467366897019727) % 2 ^ 64) * 11400714785074694791) % 2 ^ 64

/-- CPython's (3.8+) hash of a 2-tuple on a 64-bit build, given the hashes
of its items: the xxHash accumulator seeded with `XXPRIME_5`, one round per
item, then the length mangled in, with the reserved value `-1` (as unsigned,
`2^64 - 1`) replaced, interpreted as a signed 64-bit integer. -/
def pyHashTuple2 (h1 h2 : Int) : Int :=
  let lane1 : Nat := (h1 % 2 ^ 64).toNat
  let lane2 : Nat := (h2 % 2 ^ 64).toNat
  let acc0 : Nat := tupleHashRound (tupleHashRound 2870177450012600261 lane1) lane2
  let acc1 : Nat := (acc0 + Nat.xor 2 (Nat.xor 2870177450012600261 3527539)) % 2 ^ 64
  let acc : Nat := if acc1 = 2 ^ 64 - 1 then 1546275796 else acc1
  if acc < 2 ^ 63 then (acc : Int) else (acc : Int) - 2 ^ 64

/-- Embedding of `Vector.__hash__`: `hash((self.x, self.y))`. -/
def Vector.pyHash (v : Vector) : Int :=
  pyHashTuple2 (pyHashInt v.x) (pyHashInt v.y)

/-- Whether instances of a Python dataclass are hashable: by the documented
`dataclasses` rule, with `eq=True` and `frozen=False` the decorator sets
`__hash__ = None` (unhashable) unless the class body defines `__hash__`
explicitly; with `eq=False` the inherited `__hash__` is kept, and with
`eq=True, frozen=True` a hash is generated. -/
def dataclassHashable (eq frozen definesHash : Bool) : Bool :=
  definesHash || !eq || (eq && frozen)

/-- `Coordinates` in `src/2022/09/__main__.py`: a plain `@dataclasses.dataclass`
(defaults `eq=True`, `frozen=False`) whose body defines no `__hash__`. -/
def Coordinates.hashable : Bool :=
  dataclassHashable true false false

/-- `Vector` in `src/2022/common.py`: a plain `@dataclasses.dataclass` whose
body defines `__hash__` explicitly. -/
def Vector.hashable : Bool :=
  dataclassHashable true false true

/-- Modelled from the spec (§4.3): the follow offset written with the
mathematical `sign` function. -/
def specOffset (relative : Coordinates) : Coordinates :=
  if relative.x.natAbs ≤ 1 ∧ relative.y.natAbs ≤ 1 then
    ⟨0, 0⟩
  else if relative.x = 0 then
    ⟨0, Int.sign relative.y⟩
  else if relative.y = 0 then
    ⟨Int.sign relative.x, 0⟩
  else
    ⟨Int.sign relative.x, Int.sign relative.y⟩

/-- Modelled from the spec (§3): the unit displacement of each direction,
Up = (0,1), Down = (0,-1), Right = (1,0), Left = (-1,0). -/
def specUnit : Direction → Coordinates
  | Direction.UP => ⟨0, 1⟩
  | Direction.DOWN => ⟨0, -1⟩
  | Direction.RIGHT => ⟨1, 0⟩
  | Direction.LEFT => ⟨-1, 0⟩

/-- Scalar multiple of a grid displacement (spec-side, for `k * unit(d)`). -/
def Coordinates.scale (c : Coordinates) (k : Int) : Coordinates :=
  ⟨c.x * k, c.y * k⟩

/-- The worked example's move sequence
R 4, U 4, L 3, D 1, R 4, D 1, L 5, R 2. -/
def exampleMoves : List Move :=
  [⟨Direction.RIGHT, 4⟩, ⟨Direction.UP, 4⟩, ⟨Direction.LEFT, 3⟩, ⟨Direction.DOWN, 1⟩,
   ⟨Direction.RIGHT, 4⟩, ⟨Direction.DOWN, 1⟩, ⟨Direction.LEFT, 5⟩, ⟨Direction.RIGHT, 2⟩]

lemma touching_symm {a b : Coordinates} (h : touching a b) : touching b a := by
  unfold touching at *
  omega

lemma move_knot_step_small (knot a : Coordinates) :
    touching knot (move_knot knot a) := by
  unfold move_knot touching Coordinates.add Coordinates.sub
  dsimp only
  split_ifs <;> dsimp only <;> omega

lemma move_knot_touches_ahead (knot a : Coordinates)
    (hx : (a.x - knot.x).natAbs ≤ 2) (hy : (a.y - knot.y).natAbs ≤ 2) :
    touching (move_knot knot a) a := by
  unfold move_knot touching Coordinates.add Coordinates.sub
  dsimp only
  split_ifs <;> dsimp only <;> omega

lemma followAux_touch :
    ∀ (ks : List Coordinates) (oldahead newahead : Coordinates),
      List.Chain' touching (oldahead :: ks) → touching oldahead newahead →
      List.Chain' touching (newahead :: Bridge.followAux newahead ks)
  | [], _, _, _, _ => List.chain'_singleton _
  | k :: ks, oldahead, newahead, hchain, hmove => by
    rw [List.chain'_cons] at hchain
    obtain ⟨hok, hrest⟩ := hchain
    unfold Bridge.followAux
    dsimp only
    rw [List.chain'_cons]
    constructor
    · apply touching_symm
      apply move_knot_touches_ahead
      · unfold touching at hok hmove
        omega
      · unfold touching at hok hmove
        omega
    · exact followAux_touch ks k (move_knot k newahead) hrest (move_knot_step_small k newahead)

lemma sign_eq (z : Int) : z.sign = if 0 < z then 1 else if z = 0 then 0 else -1 := by
  rcases lt_trichotomy z 0 with h | h | h
  · rw [Int.sign_eq_neg_one_of_neg h, if_neg (by omega), if_neg (by omega)]
  · subst h
    rfl
  · rw [Int.sign_eq_one_of_pos h, if_pos h]

lemma followAux_length : ∀ (ks : List Coordinates) (a : Coordinates),
    (Bridge.followAux a ks).length = ks.length
  | [], _ => rfl
  | _ :: ks, a => by
    unfold Bridge.followAux
    dsimp only
    simp only [List.length_cons, followAux_length ks]

lemma stepHeads_snd_knots : ∀ (hs : List Coordinates) (b : Bridge),
    ((stepHeads b hs).2).knots.length = b.knots.length
  | [], _ => rfl
  | h :: hs, b => by
    unfold stepHeads
    dsimp only
    rw [stepHeads_snd_knots hs]
    exact (followAux_length b.knots h)

lemma stepHeads_fst_knots : ∀ (hs : List Coordinates) (b b' : Bridge),
    b' ∈ (stepHeads b hs).1 → b'.knots.length = b.knots.length
  | [], _, _, h => absurd h (List.not_mem_nil _)
  | h :: hs, b, b', hmem => by
    unfold stepHeads at hmem
    dsimp only at hmem
    rcases List.mem_cons.mp hmem with heq | hmem2
    · subst heq
      exact followAux_length b.knots h
    · rw [stepHeads_fst_knots hs (b.follow h) b' hmem2]
      exact followAux_length b.knots h

lemma runMoves_knots : ∀ (ms : List Move) (b b' : Bridge),
    b' ∈ runMoves b ms → b'.knots.length = b.knots.length
  | [], _, _, h => absurd h (List.not_mem_nil _)
  | m :: ms, b, b', hmem => by
    unfold runMoves at hmem
    dsimp only at hmem
    rcases List.mem_append.mp hmem with h1 | h2
    · exact stepHeads_fst_knots _ _ _ h1
    · rw [runMoves_knots ms _ b' h2]
      exact stepHeads_snd_knots _ b

lemma bridges_knots (moves : List Move) (n : Nat) (b : Bridge)
    (hb : b ∈ bridges moves n) : b.knots.length = n := by
  rcases List.mem_cons.mp hb with heq | hmem
  · subst heq
    exact List.length_replicate _ _
  · rw [runMoves_knots moves _ b hmem]
    exact List.length_replicate _ _

lemma stepHeads_fst_length : ∀ (hs : List Coordinates) (b : Bridge),
    ((stepHeads b hs).1).length = hs.length
  | [], _ => rfl
  | h :: hs, b => by
    unfold stepHeads
    dsimp only
    simp only [List.length_cons, stepHeads_fst_length hs]

lemma runMoves_length : ∀ (ms : List Move) (b : Bridge),
    (runMoves b ms).length = (ms.map (fun m => m.speed.toNat)).sum
  | [], _ => rfl
  | m :: ms, b => by
    unfold runMoves
    dsimp only
    rw [List.length_append, stepHeads_fst_length, runMoves_length ms]
    simp only [Move.apply, List.length_map, List.length_range, List.map_cons, List.sum_cons]

lemma replicate_getLast? (n : Nat) (a : Coordinates) (hn : 0 < n) :
    (List.replicate n a).getLast? = some a := by
  induction n with
  | zero => omega
  | succ k ih =>
    cases k with
    | zero => rfl
    | succ j =>
      rw [List.replicate_succ, List.replicate_succ, List.getLast?_cons_cons,
        ← List.replicate_succ, ih (by omega)]

lemma optionMap_mem {f : α → Option β} :
    ∀ {l : List α} {ys : List β} {a : α} {y : β},
      optionMap f l = some ys → a ∈ l → f a = some y → y ∈ ys
  | [], _, _, _, _, ha, _ => absurd ha (List.not_mem_nil _)
  | x :: l, ys, a, y, hmap, ha, hfa => by
    unfold optionMap at hmap
    rcases hx : f x with _ | b
    · rw [hx] at hmap
      exact absurd hmap (by simp)
    · rcases hrest : optionMap f l with _ | bs
      · rw [hx, hrest] at hmap
        exact absurd hmap (by simp)
      · rw [hx, hrest] at hmap
        dsimp only at hmap
        injection hmap with hys
        subst hys
        rcases List.mem_cons.mp ha with heq | hmem
        · subst heq
          rw [hx] at hfa
          injection hfa with hy
          subst hy
          exact List.mem_cons_self _ _
        · exact List.mem_cons_of_mem _ (optionMap_mem hrest hmem hfa)

lemma optionMap_isSome {f : α → Option β} :
    ∀ {l : List α}, (∀ a ∈ l, (f a).isSome) → ∃ ys, optionMap f l = some ys
  | [], _ => ⟨[], rfl⟩
  | x :: l, h => by
    rcases hx : f x with _ | b
    · have := h x (List.mem_cons_self _ _)
      rw [hx] at this
      exact absurd this (by simp)
    · obtain ⟨ys, hys⟩ := optionMap_isSome (fun a ha => h a (List.mem_cons_of_mem _ ha))
      exact ⟨b :: ys, by unfold optionMap; rw [hx, hys]⟩

lemma removeNewlines_cons (c : Char) (l : List Char) :
    removeNewlines (c :: l)
      = if c = '\n' then removeNewlines l else c :: removeNewlines l := rfl

lemma splitOnSpace_cons (c : Char) (l : List Char) :
    splitOnSpace (c :: l)
      = match splitOnSpace l with
        | [] => [[]]
        | piece :: pieces =>
          if c = ' ' then [] :: piece :: pieces else (c :: piece) :: pieces := rfl

lemma removeNewlines_append : ∀ (l1 l2 : List Char),
    removeNewlines (l1 ++ l2) = removeNewlines l1 ++ removeNewlines l2
  | [], _ => rfl
  | c :: l1, l2 => by
    rw [List.cons_append, removeNewlines_cons, removeNewlines_cons,
      removeNewlines_append l1 l2]
    split_ifs <;> simp

lemma removeNewlines_id : ∀ {l : List Char}, '\n' ∉ l → removeNewlines l = l
  | [], _ => rfl
  | c :: l, h => by
    have hc : ¬ c = '\n' := by
      intro hc
      exact h (by rw [hc]; exact List.mem_cons_self _ _)
    rw [removeNewlines_cons, if_neg hc,
      removeNewlines_id (fun hm => h (List.mem_cons_of_mem _ hm))]

lemma splitOnSpace_ne_nil : ∀ (l : List Char), splitOnSpace l ≠ []
  | [] => by simp [splitOnSpace]
  | c :: l => by
    cases h : splitOnSpace l with
    | nil => exact absurd h (splitOnSpace_ne_nil l)
    | cons p ps =>
      have hstep : splitOnSpace (c :: l)
          = if c = ' ' then [] :: p :: ps else (c :: p) :: ps := by
        rw [splitOnSpace_cons, h]
      rw [hstep]
      split_ifs <;> simp

lemma splitOnSpace_no_space : ∀ {l : List Char}, ' ' ∉ l → splitOnSpace l = [l]
  | [], _ => rfl
  | c :: l, h => by
    have hc : ¬ c = ' ' := by
      intro hc
      exact h (by rw [hc]; exact List.mem_cons_self _ _)
    have hstep : splitOnSpace (c :: l)
        = if c = ' ' then [] :: l :: [] else (c :: l) :: [] := by
      rw [splitOnSpace_cons, splitOnSpace_no_space (fun hm => h (List.mem_cons_of_mem _ hm))]
    rw [hstep, if_neg hc]

lemma splitOnSpace_append : ∀ (d m : List Char), ' ' ∉ d →
    splitOnSpace (d ++ ' ' :: m) = d :: splitOnSpace m
  | [], m, _ => by
    cases h : splitOnSpace m with
    | nil => exact absurd h (splitOnSpace_ne_nil m)
    | cons p ps =>
      have hstep : splitOnSpace (' ' :: m)
          = if ' ' = ' ' then [] :: p :: ps else (' ' :: p) :: ps := by
        rw [splitOnSpace_cons, h]
      show splitOnSpace (' ' :: m) = [] :: p :: ps
      rw [hstep, if_pos rfl]
  | c :: d, m, h => by
    have hc : ¬ c = ' ' := by
      intro hc
      exact h (by rw [hc]; exact List.mem_cons_self _ _)
    have ih := splitOnSpace_append d m (fun hm => h (List.mem_cons_of_mem _ hm))
    have hstep : splitOnSpace (c :: (d ++ ' ' :: m))
        = if c = ' ' then [] :: d :: splitOnSpace m else (c :: d) :: splitOnSpace m := by
      rw [splitOnSpace_cons, ih]
    show splitOnSpace (c :: (d ++ ' ' :: m)) = (c :: d) :: splitOnSpace m
    rw [hstep, if_neg hc]

lemma from_line_pieces (d m : List Char)
    (hd1 : ' ' ∉ d) (hd2 : '\n' ∉ d) (hm1 : ' ' ∉ m) (hm2 : '\n' ∉ m) :
    Move.from_line (d ++ ' ' :: (m ++ ['\n']))
        = (Direction.ofValue d).bind (fun dir => (pyInt m).map (fun s => Move.mk dir s))
    ∧ Move.from_line (d ++ ' ' :: m)
        = (Direction.ofValue d).bind (fun dir => (pyInt m).map (fun s => Move.mk dir s)) := by
  have hnl : removeNewlines ['\n'] = [] := rfl
  have h1 : removeNewlines (d ++ ' ' :: (m ++ ['\n'])) = d ++ ' ' :: m := by
    rw [removeNewlines_append, removeNewlines_id hd2]
    congr 1
    show removeNewlines (' ' :: (m ++ ['\n'])) = ' ' :: m
    rw [removeNewlines_cons, if_neg (by decide), removeNewlines_append,
      removeNewlines_id hm2, hnl, List.append_nil]
  have h2 : removeNewlines (d ++ ' ' :: m) = d ++ ' ' :: m := by
    rw [removeNewlines_append, removeNewlines_id hd2]
    congr 1
    show removeNewlines (' ' :: m) = ' ' :: m
    rw [removeNewlines_cons, if_neg (by decide), removeNewlines_id hm2]
  have hs : splitOnSpace (d ++ ' ' :: m) = [d, m] := by
    rw [splitOnSpace_append d m hd1, splitOnSpace_no_space hm1]
  refine ⟨?_, ?_⟩
  · unfold Move.from_line
    rw [h1, hs]
    cases hD : Direction.ofValue d <;> cases hI : pyInt m <;> simp [hD, hI]
  · unfold Move.from_line
    rw [h2, hs]
    cases hD : Direction.ofValue d <;> cases hI : pyInt m <;> simp [hD, hI]

lemma ofValue_chars : ∀ {d : List Char} {dir : Direction},
    Direction.ofValue d = some dir → ' ' ∉ d ∧ '\n' ∉ d
  | [], _, h => absurd h (by simp [Direction.ofValue])
  | [c], dir, h => by
    constructor
    · intro hmem
      rcases List.mem_singleton.mp hmem with rfl
      rw [show Direction.ofValue [' '] = none from rfl] at h
      exact Option.noConfusion h
    · intro hmem
      rcases List.mem_singleton.mp hmem with rfl
      rw [show Direction.ofValue ['\n'] = none from rfl] at h
      exact Option.noConfusion h
  | c1 :: c2 :: rest, dir, h => by
    unfold Direction.ofValue at h
    split at h <;> simp_all

lemma apply_neg (mv : Move) (hneg : mv.speed < 0) (p : Coordinates) :
    mv.apply p = [] := by
  unfold Move.apply
  rw [Int.toNat_of_nonpos (le_of_lt hneg)]
  rfl

lemma runMoves_neg (mv : Move) (hneg : mv.speed < 0) (b : Bridge) (ms : List Move) :
    runMoves b (mv :: ms) = runMoves b ms := by
  show (stepHeads b (mv.apply b.head)).1 ++ runMoves (stepHeads b (mv.apply b.head)).2 ms
      = runMoves b ms
  rw [apply_neg mv hneg]
  rfl

/-- C1. Touching-invariant preservation: if every adjacent pair of the chain
(head, knot 0, …, knot N-1) is within Chebyshev distance 1, and the new head
position is within Chebyshev distance 1 of the old head, then `Bridge.follow`
at the new head returns a chain in which every adjacent pair is again within
Chebyshev distance 1. -/
theorem follow_preserves_touching (b : Bridge) (h : Coordinates)
    (hinv : chainTouching b) (hmove : touching b.head h) :
    chainTouching (b.follow h) :=
  followAux_touch b.knots b.head h hinv hmove

/-- Witness for C1 at a concrete two-knot bridge and a concrete head move. -/
theorem follow_preserves_touching_check :
    chainTouching (Bridge.mk ⟨0, 0⟩ [⟨1, 1⟩, ⟨2, 1⟩]) ∧
      touching ⟨0, 0⟩ ⟨-1, 0⟩ ∧
      chainTouching ((Bridge.mk ⟨0, 0⟩ [⟨1, 1⟩, ⟨2, 1⟩]).follow ⟨-1, 0⟩) :=
  ⟨by decide, by decide,
    follow_preserves_touching (Bridge.mk ⟨0, 0⟩ [⟨1, 1⟩, ⟨2, 1⟩]) ⟨-1, 0⟩
      (by decide) (by decide)⟩

/-- C2. Knot-follow rule: `move_knot` computes `knot + offset` with
`offset = (0,0)` when touching, `(0, sign relative.y)` when `relative.x = 0`,
`(sign relative.x, 0)` when `relative.y = 0`, and
`(sign relative.x, sign relative.y)` otherwise; in particular a knot at
(0,0) with the ahead knot at (2,2) moves to (1,1), and a knot equal to its
ahead position does not move. -/
theorem move_knot_spec :
    (∀ knot ahead_knot : Coordinates,
        move_knot knot ahead_knot = knot.add (specOffset (ahead_knot.sub knot))) ∧
      move_knot ⟨0, 0⟩ ⟨2, 2⟩ = ⟨1, 1⟩ ∧
      ∀ knot : Coordinates, move_knot knot knot = knot := by
  refine ⟨fun knot ahead_knot => ?_, by decide, fun knot => ?_⟩
  · unfold move_knot specOffset Coordinates.add Coordinates.sub
    dsimp only
    simp only [sign_eq]
    split_ifs <;> simp only [Coordinates.mk.injEq] <;> constructor <;> omega
  · unfold move_knot Coordinates.add Coordinates.sub
    dsimp only
    rw [if_pos (by constructor <;> omega)]
    cases knot
    simp

/-- C3. End-to-end scenario: the move sequence R 4, U 4, L 3, D 1, R 4, D 1,
L 5, R 2 with a head plus one trailing knot, all starting at the origin,
visits exactly 13 distinct tail positions. -/
theorem example_visits_thirteen : answer exampleMoves 1 = some 13 := by decide

/-- C5 (amended). With no trailing knots every bridge the simulation yields
has an empty knot list, so the tail access `knots[-1]` fails (IndexError,
modelled by `none`): the tail is not the head. -/
theorem no_knots_tail_none (moves : List Move) (b : Bridge)
    (hb : b ∈ bridges moves 0) : b.tail = none := by
  have hlen := bridges_knots moves 0 b hb
  rw [List.length_eq_zero] at hlen
  unfold Bridge.tail
  rw [hlen]
  rfl

/-- Witness for the amended C5 at the initial bridge of an empty run. -/
theorem no_knots_tail_none_check :
    initialBridge 0 ∈ bridges [] 0 ∧ (initialBridge 0).tail = none :=
  ⟨by decide, no_knots_tail_none [] (initialBridge 0) (by decide)⟩

/-- Counterexample to C5 as stated: the initial bridge of a 0-trailing-knot
run has head (0,0) but its tail is `none`, not the head. -/
theorem no_knots_tail_not_head :
    (initialBridge 0).head = ⟨0, 0⟩ ∧ initialBridge 0 ∈ bridges [] 0 ∧
      (initialBridge 0).tail ≠ some (initialBridge 0).head := by decide

/-- C6. Unit-step expander: `Move.apply` produces, in order, exactly
`magnitude` positions, the k-th (1-based) being `p + k * unit(direction)`
with Up=(0,1), Down=(0,-1), Right=(1,0), Left=(-1,0); the start `p` itself
is never produced. -/
theorem move_apply_spec (d : Direction) (p : Coordinates) (n : Int) (hn : 0 ≤ n) :
    (Move.mk d n).apply p
        = (List.range n.toNat).map (fun k => p.add ((specUnit d).scale (Int.ofNat k + 1)))
    ∧ ((Move.mk d n).apply p).length = n.toNat
    ∧ p ∉ (Move.mk d n).apply p := by
  refine ⟨?_, by simp [Move.apply], ?_⟩
  · unfold Move.apply
    apply List.map_congr_left
    intro k _
    cases d <;> cases p <;>
      simp only [Move.update, specUnit, Coordinates.add, Coordinates.scale,
        Coordinates.mk.injEq] <;>
      constructor <;> omega
  · intro hmem
    unfold Move.apply at hmem
    rw [List.mem_map] at hmem
    obtain ⟨k, _, heq⟩ := hmem
    cases d <;> cases p <;>
      simp only [Move.update, Coordinates.mk.injEq, true_and, and_true,
        Int.ofNat_eq_coe] at heq <;>
      omega

/-- Witness for C6 at direction Up, start (0,0), magnitude 2. -/
theorem move_apply_spec_check :
    (0 : Int) ≤ 2
    ∧ (Move.mk Direction.UP 2).apply ⟨0, 0⟩
        = (List.range (2 : Int).toNat).map
            (fun k => (⟨0, 0⟩ : Coordinates).add ((specUnit Direction.UP).scale (Int.ofNat k + 1)))
    ∧ ((Move.mk Direction.UP 2).apply ⟨0, 0⟩).length = (2 : Int).toNat
    ∧ (⟨0, 0⟩ : Coordinates) ∉ (Move.mk Direction.UP 2).apply ⟨0, 0⟩ :=
  ⟨by decide, (move_apply_spec Direction.UP ⟨0, 0⟩ 2 (by decide)).1,
    (move_apply_spec Direction.UP ⟨0, 0⟩ 2 (by decide)).2.1,
    (move_apply_spec Direction.UP ⟨0, 0⟩ 2 (by decide)).2.2⟩

/-- C7. Move parsing: for a line of the shape "<L> <n>" (with or without a
trailing newline, the direction and magnitude pieces free of spaces and
newlines), `Move.from_line` succeeds exactly when the direction piece is one
of U, D, L, R and the magnitude piece is a valid Python integer literal, and
then returns that direction and magnitude; the letter-to-direction mapping
is U, D, L, R. -/
theorem from_line_spec (d m : List Char)
    (hd1 : ' ' ∉ d) (hd2 : '\n' ∉ d) (hm1 : ' ' ∉ m) (hm2 : '\n' ∉ m) :
    Move.from_line (d ++ ' ' :: (m ++ ['\n']))
        = (Direction.ofValue d).bind (fun dir => (pyInt m).map (fun s => Move.mk dir s))
    ∧ Move.from_line (d ++ ' ' :: m)
        = (Direction.ofValue d).bind (fun dir => (pyInt m).map (fun s => Move.mk dir s))
    ∧ Direction.ofValue ['U'] = some Direction.UP
    ∧ Direction.ofValue ['D'] = some Direction.DOWN
    ∧ Direction.ofValue ['L'] = some Direction.LEFT
    ∧ Direction.ofValue ['R'] = some Direction.RIGHT :=
  ⟨(from_line_pieces d m hd1 hd2 hm1 hm2).1, (from_line_pieces d m hd1 hd2 hm1 hm2).2,
    rfl, rfl, rfl, rfl⟩

/-- Witness for C7: "R 17\n" parses to (Right, 17); an unknown direction
letter and a non-numeric magnitude both fail. -/
theorem from_line_spec_check :
    Move.from_line (['R'] ++ ' ' :: (['1', '7'] ++ ['\n'])) = some ⟨Direction.RIGHT, 17⟩
    ∧ Move.from_line (['X'] ++ ' ' :: ['4']) = none
    ∧ Move.from_line (['U'] ++ ' ' :: ['4', 'x']) = none := by
  have h := from_line_spec ['R'] ['1', '7'] (by decide) (by decide) (by decide) (by decide)
  have h2 := from_line_spec ['X'] ['4'] (by decide) (by decide) (by decide) (by decide)
  have h3 := from_line_spec ['U'] ['4', 'x'] (by decide) (by decide) (by decide) (by decide)
  refine ⟨?_, ?_, ?_⟩
  · rw [h.1]
    decide
  · rw [h2.2.1]
    decide
  · rw [h3.2.1]
    decide

/-- C8. Visited-set seeding and final count: the simulation yields the
initial all-at-origin bridge first, whose tail is the origin, so the origin
is among the collected tail tuples; the reported answer is the number of
distinct tail tuples; and the yields are the initial state plus one state
per unit step. -/
theorem bridges_seed_count (moves : List Move) (n : Nat) (hn : 1 ≤ n) :
    (bridges moves n).head? = some (initialBridge n)
    ∧ (initialBridge n).tail = some ⟨0, 0⟩
    ∧ (∃ ts, visitedTails moves n = some ts ∧ ((0 : Int), (0 : Int)) ∈ ts
        ∧ answer moves n = some ts.dedup.length)
    ∧ (bridges moves n).length = 1 + (moves.map (fun m => m.speed.toNat)).sum := by
  have htail : (initialBridge n).tail = some ⟨0, 0⟩ := by
    unfold initialBridge Bridge.tail
    exact replicate_getLast? n _ hn
  refine ⟨rfl, htail, ?_, ?_⟩
  · have hsome : ∀ b ∈ bridges moves n, (tailTuple b).isSome := by
      intro b hb
      have hlen := bridges_knots moves n b hb
      have hne : b.knots ≠ [] := by
        intro hnil
        rw [hnil] at hlen
        simp at hlen
        omega
      unfold tailTuple Bridge.tail
      rcases hgl : b.knots.getLast? with _ | t
      · exact absurd (List.getLast?_isSome.mpr hne) (by rw [hgl]; simp)
      · rfl
    obtain ⟨ts, hts⟩ := optionMap_isSome hsome
    refine ⟨ts, hts, ?_, ?_⟩
    · apply optionMap_mem hts (List.mem_cons_self _ _)
      unfold tailTuple
      rw [htail]
      rfl
    · unfold answer
      rw [show visitedTails moves n = some ts from hts]
      rfl
  · unfold bridges
    rw [List.length_cons, runMoves_length]
    omega

/-- Witness for C8 at the empty move list with one trailing knot. -/
theorem bridges_seed_count_check :
    (bridges [] 1).head? = some (initialBridge 1)
    ∧ (initialBridge 1).tail = some ⟨0, 0⟩
    ∧ (∃ ts, visitedTails [] 1 = some ts ∧ ((0 : Int), (0 : Int)) ∈ ts
        ∧ answer [] 1 = some ts.dedup.length)
    ∧ (bridges [] 1).length = 1 + (([] : List Move).map (fun m => m.speed.toNat)).sum :=
  bridges_seed_count [] 1 (by decide)

/-- C9. `Bridge.follow` sets the head to exactly the given position, with no
precondition, and preserves the number of trailing knots; being a pure
function of the old bridge, it leaves the old bridge value unchanged. -/
theorem follow_head_knots (b : Bridge) (h : Coordinates) :
    (b.follow h).head = h ∧ (b.follow h).knots.length = b.knots.length :=
  ⟨rfl, followAux_length b.knots h⟩

/-- C10. Negative magnitude: for every line "<L> <m>" (with or without a
trailing newline) whose direction letter maps to one of the four enum
members U, D, L, R and whose magnitude piece is a negative integer literal,
`Move.from_line` succeeds and returns the Move with that direction and that
negative magnitude; applying any Move with negative speed produces no
positions, so such a move yields no bridges and changes neither the bridge
stream nor the visited tails nor the answer. -/
theorem negative_magnitude_moves (d m : List Char) (dir : Direction) (s : Int)
    (hd : Direction.ofValue d = some dir) (hm1 : ' ' ∉ m) (hm2 : '\n' ∉ m)
    (hpm : pyInt m = some s) (hneg : s < 0) :
    Move.from_line (d ++ ' ' :: (m ++ ['\n'])) = some (Move.mk dir s)
    ∧ Move.from_line (d ++ ' ' :: m) = some (Move.mk dir s)
    ∧ (∀ p : Coordinates, (Move.mk dir s).apply p = [])
    ∧ (∀ (b : Bridge) (ms : List Move),
        runMoves b (Move.mk dir s :: ms) = runMoves b ms)
    ∧ (∀ (moves : List Move) (n : Nat),
        bridges (Move.mk dir s :: moves) n = bridges moves n)
    ∧ (∀ (moves : List Move) (n : Nat),
        answer (Move.mk dir s :: moves) n = answer moves n) := by
  obtain ⟨hd1, hd2⟩ := ofValue_chars hd
  have hparse := from_line_pieces d m hd1 hd2 hm1 hm2
  have hbr : ∀ (moves : List Move) (n : Nat),
      bridges (Move.mk dir s :: moves) n = bridges moves n := by
    intro moves n
    unfold bridges
    rw [runMoves_neg _ hneg]
  refine ⟨?_, ?_, fun p => apply_neg _ hneg p, fun b ms => runMoves_neg _ hneg b ms,
    hbr, ?_⟩
  · rw [hparse.1, hd, hpm]
    rfl
  · rw [hparse.2, hd, hpm]
    rfl
  · intro moves n
    unfold answer visitedTails
    rw [hbr moves n]

/-- Witness for C10 at the line "R -3", checking each hypothesis there. -/
theorem negative_magnitude_moves_check :
    Direction.ofValue ['R'] = some Direction.RIGHT
    ∧ pyInt ['-', '3'] = some (-3)
    ∧ (-3 : Int) < 0
    ∧ Move.from_line (['R'] ++ ' ' :: ['-', '3']) = some (Move.mk Direction.RIGHT (-3))
    ∧ (Move.mk Direction.RIGHT (-3)).apply ⟨0, 0⟩ = []
    ∧ bridges [Move.mk Direction.RIGHT (-3)] 1 = bridges [] 1 :=
  ⟨by decide, by decide, by decide,
    (negative_magnitude_moves ['R'] ['-', '3'] Direction.RIGHT (-3)
      (by decide) (by decide) (by decide) (by decide) (by decide)).2.1,
    (negative_magnitude_moves ['R'] ['-', '3'] Direction.RIGHT (-3)
      (by decide) (by decide) (by decide) (by decide) (by decide)).2.2.1 ⟨0, 0⟩,
    (negative_magnitude_moves ['R'] ['-', '3'] Direction.RIGHT (-3)
      (by decide) (by decide) (by decide) (by decide) (by decide)).2.2.2.2.1 [] 1⟩

/-- C4 (amended). Equality of the simulator's `Coordinates` is structural
(componentwise); `Coordinates` itself is unhashable (a dataclass with
`eq=True`, `frozen=False` and no `__hash__` has `__hash__ = None`), which is
why the visited set stores plain coordinate tuples; the shared `Vector` type
of `src/2022/common.py` does define a structural hash, and componentwise
equal Vectors are equal and hash identically. -/
theorem vector_structural_eq_hash :
    (∀ a b : Coordinates, a = b ↔ a.x = b.x ∧ a.y = b.y)
    ∧ Coordinates.hashable = false
    ∧ Vector.hashable = true
    ∧ (∀ v w : Vector, v.x = w.x ∧ v.y = w.y → v = w ∧ v.pyHash = w.pyHash) := by
  refine ⟨fun a b => ⟨fun h => by subst h; exact ⟨rfl, rfl⟩, fun h => ?_⟩, rfl, rfl,
    fun v w h => ?_⟩
  · obtain ⟨h1, h2⟩ := h
    cases a
    cases b
    dsimp only at h1 h2
    subst h1
    subst h2
    rfl
  · obtain ⟨h1, h2⟩ := h
    cases v
    cases w
    dsimp only at h1 h2
    subst h1
    subst h2
    exact ⟨rfl, rfl⟩

/-- Counterexample to C4 as stated: the vector type used by the simulator,
`Coordinates`, is not hashable, so it cannot be a member of a Python set. -/
theorem coordinates_not_hashable : ¬ Coordinates.hashable = true := by decide

/-- Witness for the amended C4 at concrete vectors. -/
theorem vector_structural_eq_hash_check :
    ((⟨1, 2⟩ : Coordinates) = ⟨1, 2⟩) ∧ (⟨3, 4⟩ : Vector) = ⟨3, 4⟩ ∧
      (⟨3, 4⟩ : Vector).pyHash = (⟨3, 4⟩ : Vector).pyHash :=
  ⟨(vector_structural_eq_hash.1 ⟨1, 2⟩ ⟨1, 2⟩).mpr ⟨rfl, rfl⟩,
    (vector_structural_eq_hash.2.2.2 ⟨3, 4⟩ ⟨3, 4⟩ ⟨rfl, rfl⟩).1,
    (vector_structural_eq_hash.2.2.2 ⟨3, 4⟩ ⟨3, 4⟩ ⟨rfl, rfl⟩).2⟩
